import Mathlib

/-!
Verification of the capacity-calculation core of `ooptimo_app_carga`
(`src/app.py`): calendar service, name normalizer, absence classifier,
capacity calculator and task aggregator, shallowly embedded in Lean.

Numbers that Python treats as floats are modelled as rationals; Python
`int` values that may go negative are modelled as `Int`.  External data
(the regional holiday calendars produced by the `holidays` and
`workalendar` libraries, and the already-fetched task / leave records)
are parameters of the embedded functions, exactly as the core consumes
them.
-/

namespace OoptimoCarga

/-! ## Proleptic Gregorian date model (Python `datetime.date` / pandas `Timestamp`) -/

def isLeap (y : Nat) : Bool := (y % 4 == 0 && y % 100 != 0) || (y % 400 == 0)

/-- `calendar.monthrange(y, m).1`: number of days of month `m` in year `y`. -/
def monthLen (y m : Nat) : Nat :=
  if m = 2 then (if isLeap y then 29 else 28)
  else if m = 4 ∨ m = 6 ∨ m = 9 ∨ m = 11 then 30
  else 31

structure Date where
  year : Nat
  month : Nat
  day : Nat
deriving DecidableEq, Repr

def daysBeforeYear (y : Nat) : Nat :=
  365 * (y - 1) + (y - 1) / 4 - (y - 1) / 100 + (y - 1) / 400

def daysBeforeMonth (y m : Nat) : Nat :=
  ((List.range (m - 1)).map (fun k => monthLen y (k + 1))).sum

/-- Python `date.toordinal()`: day count with `date(1,1,1).toordinal() = 1`. -/
def Date.ordinal (d : Date) : Nat :=
  daysBeforeYear d.year + daysBeforeMonth d.year d.month + d.day

/-- Python `date.weekday()`: Monday = 0, ..., Sunday = 6. -/
def Date.weekday (d : Date) : Nat := (d.ordinal + 6) % 7

/-- Chronological comparison of dates (Python `<=` on `date`). -/
def Date.le (a b : Date) : Bool := a.ordinal ≤ b.ordinal

/-- The `(year, month)` grouping key (pandas `Period('M')`, the spec's MonthKey). -/
abbrev MonthKey := Nat × Nat

def Date.monthKey (d : Date) : MonthKey := (d.year, d.month)

/-- Chronological order on month periods (pandas `Period` comparison). -/
def monthKeyLt (a b : MonthKey) : Bool := a.1 < b.1 || (a.1 == b.1 && a.2 < b.2)

def Date.next (d : Date) : Date :=
  if d.day < monthLen d.year d.month then ⟨d.year, d.month, d.day + 1⟩
  else if d.month < 12 then ⟨d.year, d.month + 1, 1⟩
  else ⟨d.year + 1, 1, 1⟩

def dateListAux : Nat → Date → List Date
  | 0, _ => []
  | n + 1, d => d :: dateListAux n d.next

/-- All calendar dates from `i` to `f` inclusive (empty when `f` precedes `i`). -/
def dateList (i f : Date) : List Date :=
  dateListAux (f.ordinal + 1 - i.ordinal) i

/-! ## Calendar Service -/

/-- `pd.date_range(start, end, freq='B')` restricted by
`~dias.isin(festivos_barcelona)`: the Monday–Friday dates of `[i, f]`
that are not in the regional holiday set `fest`. -/
def businessDaysRange (fest : Date → Bool) (i f : Date) : List Date :=
  (dateList i f).filter (fun d => decide (d.weekday < 5) && !fest d)

/-- `calcular_dias_laborables_por_mes` followed by the caller's
`.get(mes_objetivo, 0)`: the per-month group size of the business days of
`[i, f]` under the month-period grouping (0 when the month is absent). -/
def diasLaborablesPorMes (fest : Date → Bool) (i f : Date) (ym : MonthKey) : Nat :=
  (businessDaysRange fest i f).countP (fun d => d.monthKey == ym)

/-- The Monday–Friday day loop of `calcular_dias_laborables_festivos`. -/
def weekdayCountLoop (y m : Nat) : Nat :=
  (List.range (monthLen y m)).countP (fun k => decide ((Date.mk y m (k + 1)).weekday < 5))

/-- The holiday loop of `calcular_dias_laborables_festivos`: entries of the
year's holiday list that fall within the month and on a Monday–Friday. -/
def festivosLaborablesLoop (holidaysYear : List Date) (y m : Nat) : Nat :=
  holidaysYear.countP (fun d =>
    Date.le ⟨y, m, 1⟩ d && Date.le d ⟨y, m, monthLen y m⟩ && decide (d.weekday < 5))

/-- `calcular_dias_laborables_festivos(year, month)`: returns
`(dias_laborables - festivos_laborables, festivos_laborables)`, where
`holidaysYear` stands for `Catalonia().holidays(year)`. -/
def calcular_dias_laborables_festivos (holidaysYear : List Date) (y m : Nat) : Int × Nat :=
  let dias_laborables := weekdayCountLoop y m
  let festivos_laborables := festivosLaborablesLoop holidaysYear y m
  ((dias_laborables : Int) - (festivos_laborables : Int), festivos_laborables)

/-! ## Name Normalizer -/

/-- Python whitespace characters relevant to `str.split()` / `str.strip()`:
space and the ASCII control whitespace `\t \n \v \f \r`. -/
def isPySpace (c : Char) : Bool := c.toNat == 32 || (9 ≤ c.toNat && c.toNat ≤ 13)

/-- Python `str.lower()` character-wise: ASCII `A`–`Z` and the Latin-1
uppercase letters `À`–`Þ` (excluding `×`) map down by 32; everything else
is unchanged. -/
def lowerChar (c : Char) : Char :=
  if (65 ≤ c.toNat && c.toNat ≤ 90) ||
     (192 ≤ c.toNat && c.toNat ≤ 222 && c.toNat != 215) then
    Char.ofNat (c.toNat + 32)
  else c

/-- Python `str.strip()`: drop leading and trailing whitespace. -/
def pyStrip (l : List Char) : List Char :=
  ((l.dropWhile isPySpace).reverse.dropWhile isPySpace).reverse

/-- Worker for `str.split()`: `acc` holds the current word reversed. -/
def splitAux : List Char → List Char → List (List Char)
  | [], acc => if acc.isEmpty then [] else [acc.reverse]
  | c :: cs, acc =>
    if isPySpace c then
      if acc.isEmpty then splitAux cs [] else acc.reverse :: splitAux cs []
    else splitAux cs (c :: acc)

/-- Python `str.split()` with no separator: maximal whitespace-free words. -/
def splitW (l : List Char) : List (List Char) := splitAux l []

/-- Python `' '.join(words)`. -/
def joinWords : List (List Char) → List Char
  | [] => []
  | [w] => w
  | w :: ws => w ++ ' ' :: joinWords ws

/-- The static alias table `NOMBRE_MAPPING` of `src/app.py`. -/
def NOMBRE_MAPPING : List (List Char × List Char) :=
  [("albert sunyer".data, "albert sunyer vilafranca".data),
   ("david collado".data, "david collado preciado".data),
   ("esther janer".data, "esther janer roig".data),
   ("vanessa dueñas".data, "vanessa dueñas moga".data),
   ("ariadna de angulo".data, "ariadna de angulo villa".data),
   ("norma vila".data, "norma vila muñoz".data),
   ("mar esteva".data, "mar esteva fabrega".data),
   ("mar esteva fàbrega".data, "mar esteva fabrega".data)]

/-- Python `dict.get(key, default)` over the alias table. -/
def mapLookup : List (List Char × List Char) → List Char → Option (List Char)
  | [], _ => none
  | (k, v) :: rest, s => if s = k then some v else mapLookup rest s

/-- `normalizar_nombre(nombre)`:
`' '.join(nombre.lower().strip().split())`, then the alias-table lookup
with the collapsed form itself as the default. -/
def normalizar_nombre (nombre : List Char) : List Char :=
  let nombre_norm := joinWords (splitW (pyStrip (nombre.map lowerChar)))
  (mapLookup NOMBRE_MAPPING nombre_norm).getD nombre_norm

/-! ## Capacity Calculator -/

/-- `calcular_horas_disponibles(year, month, dias_vacaciones,
dias_otras_ausencias, buffer_porcentaje)` from `src/app.py`. -/
def calcular_horas_disponibles (holidaysYear : List Date) (year month : Nat)
    (dias_vacaciones dias_otras_ausencias : ℚ) (buffer_porcentaje : ℚ) : ℚ :=
  let dias_laborables : Int := (calcular_dias_laborables_festivos holidaysYear year month).1
  let horas_por_dia : ℚ := if month = 8 then 7 else 8
  let dias_ausencia_total := dias_vacaciones + dias_otras_ausencias
  let horas_brutas : ℚ := (dias_laborables : ℚ) * horas_por_dia
  let horas_ausencias := dias_ausencia_total * horas_por_dia
  let porcentaje_ausencia : ℚ :=
    if 0 < dias_laborables then dias_ausencia_total / (dias_laborables : ℚ) else 1
  let buffer := (horas_brutas - horas_ausencias) * buffer_porcentaje * (1 - porcentaje_ausencia)
  max 0 (horas_brutas - horas_ausencias - buffer)

/-- Modelled from the spec wording of claim C1 (refinement reference):
`max(0, netHours - buffer)` with `netBusinessDays` the first component of
the Calendar Service result, `hoursPerDay = 7` in August and `8`
otherwise, `grossHours = netBusinessDays * hoursPerDay`,
`netHours = grossHours - (v + o) * hoursPerDay`,
`absenceFraction = (v + o) / netBusinessDays` when `netBusinessDays > 0`
and `1` otherwise, and `buffer = netHours * 0.10 * (1 - absenceFraction)`. -/
def availableHoursSpecC1 (holidaysYear : List Date) (y m : Nat) (v o : ℚ) : ℚ :=
  let netBusinessDays : Int := (calcular_dias_laborables_festivos holidaysYear y m).1
  let hoursPerDay : ℚ := if m = 8 then 7 else 8
  let grossHours : ℚ := (netBusinessDays : ℚ) * hoursPerDay
  let netHours : ℚ := grossHours - (v + o) * hoursPerDay
  let absenceFraction : ℚ :=
    if 0 < netBusinessDays then (v + o) / (netBusinessDays : ℚ) else 1
  let buffer : ℚ := netHours * (10 : ℚ)⁻¹ * (1 - absenceFraction)
  max 0 (netHours - buffer)

/-! ## Absence Classifier -/

/-- One raw Factorial leave record.  The date fields model the outcome of
`pd.to_datetime` on the record's `start_on` / `finish_on` strings: `none`
when that conversion raises (unparseable text or a timestamp outside the
pandas-computable bounds), `some d` when it yields the date `d`. -/
structure Ausencia where
  employee_full_name : List Char
  start_on : Option Date
  finish_on : Option Date
  leave_type_id : Int
deriving Repr

/-- `ids_no_descuentan = {2280065}` (Día extra teletrabajo). -/
def ids_no_descuentan : List Int := [2280065]

/-- `ID_VACACIONES = 2276680`. -/
def ID_VACACIONES : Int := 2276680

/-- The accumulation loop of `calcular_ausencias_empleado`; the accumulator
is `(dias_vacaciones, dias_otras_ausencias, dias_teletrabajo)` and an
unconvertible date of a matching leave raises (`Except.error`), exactly as
the uncaught `pd.to_datetime` call does. -/
def calcAusLoop (fest : Date → Bool) (nombreNorm : List Char) (ym : MonthKey) :
    List Ausencia → Nat × Nat × Nat → Except Unit (Nat × Nat × Nat)
  | [], acc => .ok acc
  | a :: rest, acc =>
    if normalizar_nombre a.employee_full_name ≠ nombreNorm then
      calcAusLoop fest nombreNorm ym rest acc
    else
      match a.start_on, a.finish_on with
      | some inicio, some fin =>
        if monthKeyLt ym inicio.monthKey || monthKeyLt fin.monthKey ym then
          calcAusLoop fest nombreNorm ym rest acc
        else
          let dias := diasLaborablesPorMes fest inicio fin ym
          let acc' :=
            if ids_no_descuentan.contains a.leave_type_id then
              (acc.1, acc.2.1, acc.2.2 + dias)
            else if a.leave_type_id = ID_VACACIONES then
              (acc.1 + dias, acc.2.1, acc.2.2)
            else
              (acc.1, acc.2.1 + dias, acc.2.2)
          calcAusLoop fest nombreNorm ym rest acc'
      | _, _ => .error ()

/-- `calcular_ausencias_empleado(empleado_nombre, anio, mes)` over an
already-fetched leave snapshot (`obtener_ausencias()` is the external
fetch; its result is the `all_ausencias` parameter). -/
def calcular_ausencias_empleado (fest : Date → Bool) (empleado_nombre : List Char)
    (anio mes : Nat) (all_ausencias : List Ausencia) : Except Unit (Nat × Nat × Nat) :=
  calcAusLoop fest (normalizar_nombre empleado_nombre) (anio, mes) all_ausencias (0, 0, 0)

/-- The `try/except ValueError` of the report-build loop (lines 311–321 of
`src/app.py`): a classification failure for one employee-month defaults
that employee-month's three absence fields to `(0, 0, 0)`. -/
def ausenciasConCaptura (fest : Date → Bool) (empleado_nombre : List Char)
    (anio mes : Nat) (all_ausencias : List Ausencia) : Nat × Nat × Nat :=
  match calcular_ausencias_empleado fest empleado_nombre anio mes all_ausencias with
  | .ok v => v
  | .error _ => (0, 0, 0)

/-- The inner `for colaborador in colaboradores` of the report-build loop:
every employee of the month gets an absence triple. -/
def ausenciasTodosEmpleados (fest : Date → Bool) (anio mes : Nat)
    (all_ausencias : List Ausencia) (colaboradores : List (List Char)) :
    List (Nat × Nat × Nat) :=
  colaboradores.map (fun c => ausenciasConCaptura fest c anio mes all_ausencias)

/-! ## Task Aggregator -/

structure Colaborador where
  first_name : List Char
  last_name : List Char

/-- One raw COR task, as consumed by the aggregation loop of
`descargar_datos`.  `dt` models the task's `datetime` field reduced to the
`(year, month)` that `strptime` extracts from it (the only part the loop
uses); `none` means the field is missing or empty (`if not dt_str`). -/
structure Task where
  dt : Option MonthKey
  hour_charged : ℚ
  estimated : ℚ
  collaborators : List Colaborador

/-- `f"{colab.get('first_name','')} {colab.get('last_name','')}".strip()`. -/
def rawNameOf (c : Colaborador) : List Char :=
  pyStrip (c.first_name ++ ' ' :: c.last_name)

/-- Running totals: `(horas_cargadas, horas_estimadas)` per month key and
normalized collaborator name (the `empleadosPorMes` dict of
`descargar_datos`, restricted to its two hour fields). -/
def addShare (acc : MonthKey → List Char → ℚ × ℚ) (mk : MonthKey) (nm : List Char)
    (hc est : ℚ) : MonthKey → List Char → ℚ × ℚ :=
  fun mk' nm' =>
    if mk' = mk ∧ nm' = nm then ((acc mk' nm').1 + hc, (acc mk' nm').2 + est)
    else acc mk' nm'

/-- The body of `for task in all_tasks` in `descargar_datos`: skip tasks
with no timestamp and tasks with no collaborators, otherwise split
`hour_charged` and `estimated/60` evenly over the collaborators and
accumulate under each normalized collaborator name. -/
def procTask (acc : MonthKey → List Char → ℚ × ℚ) (t : Task) :
    MonthKey → List Char → ℚ × ℚ :=
  match t.dt with
  | none => acc
  | some mk =>
    let estimated_hours := t.estimated / 60
    if t.collaborators.isEmpty then acc
    else
      let num_cols : ℚ := t.collaborators.length
      let hc_por_colab := t.hour_charged / num_cols
      let est_por_colab := estimated_hours / num_cols
      t.collaborators.foldl
        (fun a c => addShare a mk (normalizar_nombre (rawNameOf c)) hc_por_colab est_por_colab)
        acc

/-- The whole task-aggregation pass of `descargar_datos`. -/
def aggTasks (ts : List Task) : MonthKey → List Char → ℚ × ℚ :=
  ts.foldl procTask (fun _ _ => (0, 0))

/-- One task's total contribution to the `(mk, nm)` cell (for the sum
characterization of `aggTasks`). -/
def contribTask (t : Task) (mk : MonthKey) (nm : List Char) : ℚ × ℚ :=
  match t.dt with
  | none => (0, 0)
  | some mk' =>
    if mk' = mk ∧ ¬t.collaborators.isEmpty then
      let num_cols : ℚ := t.collaborators.length
      let cnt : ℚ := t.collaborators.countP (fun c => normalizar_nombre (rawNameOf c) == nm)
      (cnt * (t.hour_charged / num_cols), cnt * (t.estimated / 60 / num_cols))
    else (0, 0)

/-! ## Helper lemmas: capacity formula -/

/-- `calcular_horas_disponibles` as a function of the total absence days
`a = dias_vacaciones + dias_otras_ausencias`. -/
def hoursAvailAux (N : Int) (h a bp : ℚ) : ℚ :=
  let brutas : ℚ := (N : ℚ) * h
  let ausencias := a * h
  let pct : ℚ := if 0 < N then a / (N : ℚ) else 1
  let buffer := (brutas - ausencias) * bp * (1 - pct)
  max 0 (brutas - ausencias - buffer)

theorem calcular_horas_disponibles_eq_aux (hs : List Date) (y m : Nat) (v o bp : ℚ) :
    calcular_horas_disponibles hs y m v o bp =
      hoursAvailAux (calcular_dias_laborables_festivos hs y m).1
        (if m = 8 then 7 else 8) (v + o) bp := rfl

theorem hoursAvailAux_nonneg (N : Int) (h a bp : ℚ) : 0 ≤ hoursAvailAux N h a bp :=
  le_max_left 0 _

theorem hoursAvailAux_closed_pos (N : Int) (hN : 0 < N) (h a : ℚ) :
    hoursAvailAux N h a (1 / 10) =
      max 0 (h * ((N : ℚ) - a) * (9 * (N : ℚ) + a) / (10 * (N : ℚ))) := by
  have hNq : (0 : ℚ) < (N : ℚ) := by exact_mod_cast hN
  simp only [hoursAvailAux, if_pos hN]
  congr 1
  field_simp
  ring

theorem hoursAvailAux_closed_nonpos (N : Int) (hN : ¬ 0 < N) (h a : ℚ) (bp : ℚ) :
    hoursAvailAux N h a bp = max 0 (((N : ℚ) - a) * h) := by
  simp only [hoursAvailAux, if_neg hN]
  ring_nf

theorem hoursAvailAux_mono (N : Int) (h : ℚ) (hh : 0 < h) {a a' : ℚ}
    (ha : 0 ≤ a) (haa : a ≤ a') :
    hoursAvailAux N h a' (1 / 10) ≤ hoursAvailAux N h a (1 / 10) := by
  by_cases hN : 0 < N
  · rw [hoursAvailAux_closed_pos N hN, hoursAvailAux_closed_pos N hN]
    have hNq : (0 : ℚ) < (N : ℚ) := by exact_mod_cast hN
    apply max_le_max le_rfl
    rw [div_le_div_iff_of_pos_right (by linarith : (0 : ℚ) < 10 * (N : ℚ))]
    have key : h * ((N : ℚ) - a) * (9 * (N : ℚ) + a) - h * ((N : ℚ) - a') * (9 * (N : ℚ) + a')
        = h * (a' - a) * (8 * (N : ℚ) + a + a') := by ring
    have h8 : (0 : ℚ) ≤ 8 * (N : ℚ) + a + a' := by linarith [ha.trans haa]
    have hprod : 0 ≤ h * (a' - a) * (8 * (N : ℚ) + a + a') :=
      mul_nonneg (mul_nonneg hh.le (sub_nonneg.2 haa)) h8
    linarith [key, hprod]
  · rw [hoursAvailAux_closed_nonpos N hN, hoursAvailAux_closed_nonpos N hN]
    apply max_le_max le_rfl
    have : (N : ℚ) - a' ≤ (N : ℚ) - a := by linarith
    exact mul_le_mul_of_nonneg_right this hh.le

theorem hoursAvailAux_le_gross (N : Int) (hN : 0 ≤ N) (h : ℚ) (hh : 0 < h)
    {a : ℚ} (ha : 0 ≤ a) : hoursAvailAux N h a (1 / 10) ≤ (N : ℚ) * h := by
  have hNq : (0 : ℚ) ≤ (N : ℚ) := by exact_mod_cast hN
  rcases lt_or_eq_of_le hN with hpos | hzero
  · rw [hoursAvailAux_closed_pos N hpos]
    have hNq' : (0 : ℚ) < (N : ℚ) := by exact_mod_cast hpos
    apply max_le (by positivity)
    rw [div_le_iff₀ (by linarith : (0 : ℚ) < 10 * (N : ℚ))]
    have key : (N : ℚ) * h * (10 * (N : ℚ)) - h * ((N : ℚ) - a) * (9 * (N : ℚ) + a)
        = h * ((N : ℚ) * (N : ℚ)) + 8 * (h * ((N : ℚ) * a)) + h * (a * a) := by ring
    have h1 : 0 ≤ h * ((N : ℚ) * (N : ℚ)) := mul_nonneg hh.le (mul_nonneg hNq'.le hNq'.le)
    have h2 : 0 ≤ h * ((N : ℚ) * a) := mul_nonneg hh.le (mul_nonneg hNq'.le ha)
    have h3 : 0 ≤ h * (a * a) := mul_nonneg hh.le (mul_nonneg ha ha)
    linarith [key, h1, h2, h3]
  · rw [hoursAvailAux_closed_nonpos N (by omega : ¬ 0 < N)]
    apply max_le
    · rw [← hzero]; simp
    · rw [← hzero]; push_cast; nlinarith

/-! ## Claims C1, C4, C10: the Capacity Calculator -/

/-- C1: for every year, month and nonnegative `vacationDays`,
`otherAbsenceDays`, `availableHours` with `bufferFraction = 0.10` equals
`max(0, netHours - buffer)` with `netBusinessDays` the first component of
the Calendar Service result, `hoursPerDay = 7` in August and `8`
otherwise, `grossHours = netBusinessDays * hoursPerDay`,
`netHours = grossHours - (v + o) * hoursPerDay`, `absenceFraction =
(v + o) / netBusinessDays` when positive and `1` otherwise, and
`buffer = netHours * 0.10 * (1 - absenceFraction)`. -/
theorem claim_C1 (hs : List Date) (y m : Nat) (v o : ℚ) (hv : 0 ≤ v) (ho : 0 ≤ o) :
    calcular_horas_disponibles hs y m v o (1 / 10) = availableHoursSpecC1 hs y m v o := by
  unfold calcular_horas_disponibles availableHoursSpecC1
  norm_num

theorem claim_C1_witness :
    ((0 : ℚ) ≤ 3 ∧ (0 : ℚ) ≤ 1) ∧
      calcular_horas_disponibles [⟨2025, 1, 1⟩, ⟨2025, 1, 6⟩] 2025 1 3 1 (1 / 10) =
        availableHoursSpecC1 [⟨2025, 1, 1⟩, ⟨2025, 1, 6⟩] 2025 1 3 1 :=
  ⟨⟨by norm_num, by norm_num⟩,
    claim_C1 [⟨2025, 1, 1⟩, ⟨2025, 1, 6⟩] 2025 1 3 1 (by norm_num) (by norm_num)⟩

/-- C4: holding year, month and `bufferFraction = 0.10` fixed,
`availableHours` is monotonically non-increasing in `vacationDays` and in
`otherAbsenceDays`, and its result is always nonnegative. -/
theorem claim_C4 (hs : List Date) (y m : Nat) (v v' o o' : ℚ)
    (hv : 0 ≤ v) (hvv : v ≤ v') (ho : 0 ≤ o) (hoo : o ≤ o') :
    calcular_horas_disponibles hs y m v' o (1 / 10) ≤
        calcular_horas_disponibles hs y m v o (1 / 10) ∧
      calcular_horas_disponibles hs y m v o' (1 / 10) ≤
        calcular_horas_disponibles hs y m v o (1 / 10) ∧
      0 ≤ calcular_horas_disponibles hs y m v o (1 / 10) := by
  have hh : (0 : ℚ) < (if m = 8 then 7 else 8) := by split <;> norm_num
  refine ⟨?_, ?_, ?_⟩
  · rw [calcular_horas_disponibles_eq_aux, calcular_horas_disponibles_eq_aux]
    exact hoursAvailAux_mono _ _ hh (by linarith) (by linarith)
  · rw [calcular_horas_disponibles_eq_aux, calcular_horas_disponibles_eq_aux]
    exact hoursAvailAux_mono _ _ hh (by linarith) (by linarith)
  · rw [calcular_horas_disponibles_eq_aux]
    exact hoursAvailAux_nonneg _ _ _ _

theorem claim_C4_witness :
    ((0 : ℚ) ≤ 1 ∧ (1 : ℚ) ≤ 2 ∧ (0 : ℚ) ≤ 0 ∧ (0 : ℚ) ≤ 1) ∧
      (calcular_horas_disponibles [⟨2025, 1, 1⟩, ⟨2025, 1, 6⟩] 2025 1 2 0 (1 / 10) ≤
          calcular_horas_disponibles [⟨2025, 1, 1⟩, ⟨2025, 1, 6⟩] 2025 1 1 0 (1 / 10) ∧
        calcular_horas_disponibles [⟨2025, 1, 1⟩, ⟨2025, 1, 6⟩] 2025 1 1 1 (1 / 10) ≤
          calcular_horas_disponibles [⟨2025, 1, 1⟩, ⟨2025, 1, 6⟩] 2025 1 1 0 (1 / 10) ∧
        0 ≤ calcular_horas_disponibles [⟨2025, 1, 1⟩, ⟨2025, 1, 6⟩] 2025 1 1 0 (1 / 10)) :=
  ⟨⟨by norm_num, by norm_num, by norm_num, by norm_num⟩,
    claim_C4 [⟨2025, 1, 1⟩, ⟨2025, 1, 6⟩] 2025 1 1 2 0 1
      (by norm_num) (by norm_num) (by norm_num) (by norm_num)⟩

/-- C10: with nonnegative absence inputs, the available hours never exceed
the month's gross capacity `netBusinessDays * hoursPerDay`. -/
theorem claim_C10 (hs : List Date) (y m : Nat) (v o : ℚ) (hv : 0 ≤ v) (ho : 0 ≤ o)
    (hN : 0 ≤ (calcular_dias_laborables_festivos hs y m).1) :
    calcular_horas_disponibles hs y m v o (1 / 10) ≤
      (((calcular_dias_laborables_festivos hs y m).1 : ℚ)) * (if m = 8 then 7 else 8) := by
  have hh : (0 : ℚ) < (if m = 8 then 7 else 8) := by split <;> norm_num
  rw [calcular_horas_disponibles_eq_aux]
  exact hoursAvailAux_le_gross _ hN _ hh (by linarith)

theorem claim_C10_witness :
    ((0 : ℚ) ≤ 30 ∧ (0 : ℚ) ≤ 5 ∧
        0 ≤ (calcular_dias_laborables_festivos [⟨2025, 1, 1⟩, ⟨2025, 1, 6⟩] 2025 1).1) ∧
      calcular_horas_disponibles [⟨2025, 1, 1⟩, ⟨2025, 1, 6⟩] 2025 1 30 5 (1 / 10) ≤
        (((calcular_dias_laborables_festivos [⟨2025, 1, 1⟩, ⟨2025, 1, 6⟩] 2025 1).1 : ℚ)) *
          (if (1 : Nat) = 8 then 7 else 8) :=
  ⟨⟨by norm_num, by norm_num, by decide⟩,
    claim_C10 [⟨2025, 1, 1⟩, ⟨2025, 1, 6⟩] 2025 1 30 5 (by norm_num) (by norm_num) (by decide)⟩

/-! ## Helper lemmas: date ranges and month grouping -/

theorem dateListAux_month (y m : Nat) :
    ∀ (n d : Nat), d + n ≤ monthLen y m + 1 → 1 ≤ d →
      dateListAux n ⟨y, m, d⟩ = (List.range n).map (fun k => ⟨y, m, d + k⟩)
  | 0, d, _, _ => by simp [dateListAux]
  | n + 1, d, hle, hd => by
    have hnext : (Date.mk y m d).next = if d < monthLen y m then ⟨y, m, d + 1⟩
        else if m < 12 then ⟨y, m + 1, 1⟩ else ⟨y + 1, 1, 1⟩ := rfl
    cases n with
    | zero => simp [dateListAux, List.range_succ]
    | succ n =>
      have hdlt : d < monthLen y m := by omega
      have ih := dateListAux_month y m (n + 1) (d + 1) (by omega) (by omega)
      have hstep : dateListAux (n + 1 + 1) ⟨y, m, d⟩
          = Date.mk y m d :: dateListAux (n + 1) ⟨y, m, d + 1⟩ := by
        simp only [dateListAux, hnext, if_pos hdlt]
      have hsplit : (List.range (n + 1 + 1)).map (fun k => Date.mk y m (d + k))
          = Date.mk y m d :: (List.range (n + 1)).map (fun k => Date.mk y m (d + 1 + k)) := by
        rw [List.range_succ_eq_map, List.map_cons, List.map_map]
        refine congrArg₂ List.cons rfl (List.map_congr_left ?_)
        intro a _
        simp only [Function.comp_apply, Date.mk.injEq]
        exact ⟨trivial, trivial, by omega⟩
      rw [hstep, ih, hsplit]

theorem dateList_month (y m : Nat) :
    dateList ⟨y, m, 1⟩ ⟨y, m, monthLen y m⟩ =
      (List.range (monthLen y m)).map (fun k => ⟨y, m, 1 + k⟩) := by
  have hfuel : (Date.mk y m (monthLen y m)).ordinal + 1 - (Date.mk y m 1).ordinal
      = monthLen y m := by
    simp only [Date.ordinal]
    have h1 : 1 ≤ monthLen y m := by
      unfold monthLen
      split
      · split <;> omega
      · split <;> omega
    omega
  rw [dateList, hfuel]
  exact dateListAux_month y m (monthLen y m) 1 (by omega) le_rfl

/-- Partition lemma: grouping a list by a key and summing the group sizes
over any set containing every key gives back the length. -/
theorem sum_countP_key {α κ : Type} [BEq κ] [LawfulBEq κ] [DecidableEq κ] (k : α → κ) :
    ∀ (l : List α) (S : Finset κ), (∀ x ∈ l, k x ∈ S) →
      ∑ v ∈ S, l.countP (fun x => k x == v) = l.length
  | [], S, _ => by simp
  | a :: l, S, h => by
    have ha : k a ∈ S := h a (by simp)
    have hl : ∀ x ∈ l, k x ∈ S := fun x hx => h x (by simp [hx])
    simp only [List.countP_cons, beq_iff_eq]
    rw [Finset.sum_add_distrib, sum_countP_key k l S hl]
    have : ∑ v ∈ S, (if k a = v then 1 else 0) = 1 := by
      rw [Finset.sum_ite_eq S (k a) (fun _ => 1), if_pos ha]
    simp only [this, List.length_cons]

/-! ## Claim C5: the Calendar Service contract (corrected) -/

/-- Modelled from the spec: `workingDays` as the spec defines it, the
count of Monday–Friday calendar dates in the month, computed over the
month's date range (independent of the code's day loop). -/
def weekdaysInMonthSpec (y m : Nat) : Nat :=
  (dateList ⟨y, m, 1⟩ ⟨y, m, monthLen y m⟩).countP (fun d => decide (d.weekday < 5))

/-- The `workalendar` Catalonia holiday list for 2025 (external calendar
data instantiated concretely). -/
def holidaysCatalonia2025 : List Date :=
  [⟨2025, 1, 1⟩, ⟨2025, 1, 6⟩, ⟨2025, 4, 18⟩, ⟨2025, 4, 21⟩, ⟨2025, 5, 1⟩,
   ⟨2025, 6, 24⟩, ⟨2025, 8, 15⟩, ⟨2025, 9, 11⟩, ⟨2025, 11, 1⟩, ⟨2025, 12, 6⟩,
   ⟨2025, 12, 8⟩, ⟨2025, 12, 25⟩, ⟨2025, 12, 26⟩]

/-- C5 counterexample: in January 2025 (23 Monday–Friday dates, 2 weekday
holidays) the function returns `(21, 2)`, so its first component is the
*net* business-day count, not the claimed raw Monday–Friday count 23. -/
theorem claim_C5_counterexample :
    calcular_dias_laborables_festivos holidaysCatalonia2025 2025 1 = (21, 2) ∧
      weekdaysInMonthSpec 2025 1 = 23 ∧
      (calcular_dias_laborables_festivos holidaysCatalonia2025 2025 1).1 ≠
        (weekdaysInMonthSpec 2025 1 : Int) := by
  refine ⟨by decide, by decide, by decide⟩

/-- C5 (amended): `calcular_dias_laborables_festivos` returns
`(workingDays - workingHolidays, workingHolidays)` — the first component
is already the derived `netBusinessDays`, which the caller uses directly,
where `workingDays` is the count of Monday–Friday calendar dates of the
month and `workingHolidays` the count of the year's holiday entries that
fall on a Monday–Friday within the month. -/
theorem claim_C5_amended (hs : List Date) (y m : Nat) :
    calcular_dias_laborables_festivos hs y m =
      ((weekdaysInMonthSpec y m : Int) - (festivosLaborablesLoop hs y m : Int),
        festivosLaborablesLoop hs y m) := by
  have hw : weekdayCountLoop y m = weekdaysInMonthSpec y m := by
    rw [weekdaysInMonthSpec, dateList_month, List.countP_map, weekdayCountLoop]
    apply List.countP_congr
    intro k _
    simp [Function.comp, Nat.add_comm]
  rw [calcular_dias_laborables_festivos, hw]

/-! ## Claim C2: month apportionment of a leave's working days -/

/-- C2: for a leave range `[i, f]`, the per-month count used by the
Absence Classifier is exactly the number of working days (Monday–Friday,
non-holiday) of the range falling in the target month — so a leave
starting in an earlier month still contributes its in-month days — and
summing the per-month counts over every month the range overlaps gives
the working-day count of the whole range, with no day double-counted or
lost at a month boundary. -/
theorem claim_C2 (fest : Date → Bool) (i f : Date) :
    (∀ ym : MonthKey, diasLaborablesPorMes fest i f ym =
        ((businessDaysRange fest i f).filter (fun d => d.monthKey == ym)).length) ∧
      ∑ ym ∈ ((dateList i f).map Date.monthKey).toFinset,
          diasLaborablesPorMes fest i f ym = (businessDaysRange fest i f).length := by
  constructor
  · intro ym
    rw [diasLaborablesPorMes, List.countP_eq_length_filter]
  · simp only [diasLaborablesPorMes]
    apply sum_countP_key Date.monthKey (businessDaysRange fest i f)
    intro x hx
    simp only [List.mem_toFinset, List.mem_map]
    exact ⟨x, (List.mem_filter.1 hx).1, rfl⟩

/-! ## Helper lemmas: the Absence Classifier loop -/

/-- Does a leave record belong to the (already normalized) target employee? -/
def matchesEmpleado (nombreNorm : List Char) (a : Ausencia) : Bool :=
  normalizar_nombre a.employee_full_name == nombreNorm

/-- The in-target-month working-day count one leave contributes (0 for a
leave whose month span does not cover the target month). -/
def leaveDiasEnMes (fest : Date → Bool) (ym : MonthKey) (a : Ausencia) : Nat :=
  match a.start_on, a.finish_on with
  | some i, some f =>
    if monthKeyLt ym i.monthKey || monthKeyLt f.monthKey ym then 0
    else diasLaborablesPorMes fest i f ym
  | _, _ => 0

/-- Bucket predicate: the non-deducting remote-work-credit type-ids. -/
def esTeletrabajo (a : Ausencia) : Bool := ids_no_descuentan.contains a.leave_type_id

/-- Bucket predicate: the vacation type-id (and not a remote-credit id). -/
def esVacaciones (a : Ausencia) : Bool :=
  !ids_no_descuentan.contains a.leave_type_id && a.leave_type_id == ID_VACACIONES

/-- Bucket predicate: every other leave type. -/
def esOtraAusencia (a : Ausencia) : Bool :=
  !ids_no_descuentan.contains a.leave_type_id && a.leave_type_id != ID_VACACIONES

/-- Modelled from the spec: total working days, within the target month, of
the target employee's leaves in bucket `p`. -/
def specDias (fest : Date → Bool) (nombreNorm : List Char) (ym : MonthKey)
    (p : Ausencia → Bool) (leaves : List Ausencia) : Nat :=
  ((leaves.filter (fun a => matchesEmpleado nombreNorm a && p a)).map
    (leaveDiasEnMes fest ym)).sum

theorem specDias_cons (fest : Date → Bool) (nombreNorm : List Char) (ym : MonthKey)
    (p : Ausencia → Bool) (a : Ausencia) (rest : List Ausencia) :
    specDias fest nombreNorm ym p (a :: rest) =
      (if matchesEmpleado nombreNorm a && p a then leaveDiasEnMes fest ym a else 0) +
        specDias fest nombreNorm ym p rest := by
  simp only [specDias, List.filter_cons]
  split
  · simp
  · simp

theorem calcAusLoop_ok (fest : Date → Bool) (nombreNorm : List Char) (ym : MonthKey) :
    ∀ (leaves : List Ausencia) (acc : Nat × Nat × Nat),
      (∀ a ∈ leaves, matchesEmpleado nombreNorm a = true →
        a.start_on.isSome ∧ a.finish_on.isSome) →
      calcAusLoop fest nombreNorm ym leaves acc =
        .ok (acc.1 + specDias fest nombreNorm ym esVacaciones leaves,
             acc.2.1 + specDias fest nombreNorm ym esOtraAusencia leaves,
             acc.2.2 + specDias fest nombreNorm ym esTeletrabajo leaves)
  | [], acc, _ => by simp [calcAusLoop, specDias]
  | a :: rest, acc, h => by
    have hrest : ∀ b ∈ rest, matchesEmpleado nombreNorm b = true →
        b.start_on.isSome ∧ b.finish_on.isSome :=
      fun b hb => h b (List.mem_cons_of_mem a hb)
    by_cases hmatch : matchesEmpleado nombreNorm a = true
    · have hne : ¬ normalizar_nombre a.employee_full_name ≠ nombreNorm := by
        simp only [matchesEmpleado, beq_iff_eq] at hmatch
        simp [hmatch]
      obtain ⟨hsi, hfi⟩ := h a (List.mem_cons_self a rest) hmatch
      obtain ⟨i, hi⟩ := Option.isSome_iff_exists.1 hsi
      obtain ⟨f, hf⟩ := Option.isSome_iff_exists.1 hfi
      rw [calcAusLoop, if_neg hne, hi, hf]
      dsimp only
      by_cases hskip : (monthKeyLt ym i.monthKey || monthKeyLt f.monthKey ym) = true
      · rw [if_pos hskip, calcAusLoop_ok fest nombreNorm ym rest acc hrest]
        have hzero : leaveDiasEnMes fest ym a = 0 := by
          simp [leaveDiasEnMes, hi, hf, hskip]
        simp only [specDias_cons, hzero, Except.ok.injEq, Prod.mk.injEq]
        refine ⟨?_, ?_, ?_⟩ <;> split <;> omega
      · rw [if_neg hskip, calcAusLoop_ok fest nombreNorm ym rest _ hrest]
        have hdias : leaveDiasEnMes fest ym a = diasLaborablesPorMes fest i f ym := by
          simp [leaveDiasEnMes, hi, hf, hskip]
        by_cases ht : ids_no_descuentan.contains a.leave_type_id = true
        · have htm : a.leave_type_id ∈ ids_no_descuentan := by simpa using ht
          have h1 : (matchesEmpleado nombreNorm a && esVacaciones a) = false := by
            simp only [esVacaciones, ht, Bool.not_true, Bool.false_and, Bool.and_false]
          have h2 : (matchesEmpleado nombreNorm a && esOtraAusencia a) = false := by
            simp only [esOtraAusencia, ht, Bool.not_true, Bool.false_and, Bool.and_false]
          have h3 : (matchesEmpleado nombreNorm a && esTeletrabajo a) = true := by
            simp only [esTeletrabajo, ht, Bool.and_true, hmatch]
          simp [specDias_cons, h1, h2, h3, hdias, htm]
          omega
        · have htf : ids_no_descuentan.contains a.leave_type_id = false := by
            cases hcb : ids_no_descuentan.contains a.leave_type_id
            · rfl
            · exact absurd hcb ht
          have hnm : a.leave_type_id ∉ ids_no_descuentan := by
            intro hmem
            exact ht (by simpa using hmem)
          have hnmv : ID_VACACIONES ∉ ids_no_descuentan := by decide
          by_cases hv : a.leave_type_id = ID_VACACIONES
          · have hbeqt : (a.leave_type_id == ID_VACACIONES) = true := by
              simp [hv]
            have h1 : (matchesEmpleado nombreNorm a && esVacaciones a) = true := by
              simp only [esVacaciones, htf, Bool.not_false, Bool.true_and, hbeqt,
                Bool.and_true, hmatch]
            have h2 : (matchesEmpleado nombreNorm a && esOtraAusencia a) = false := by
              simp only [esOtraAusencia, htf, Bool.not_false, Bool.true_and, bne, hbeqt,
                Bool.not_true, Bool.and_false]
            have h3 : (matchesEmpleado nombreNorm a && esTeletrabajo a) = false := by
              simp only [esTeletrabajo, htf, Bool.and_false]
            simp [specDias_cons, h1, h2, h3, hdias, hnm, hnmv, hv]
            omega
          · have hbeq : (a.leave_type_id == ID_VACACIONES) = false :=
              beq_eq_false_iff_ne.2 hv
            have h1 : (matchesEmpleado nombreNorm a && esVacaciones a) = false := by
              simp only [esVacaciones, htf, Bool.not_false, Bool.true_and, hbeq,
                Bool.and_false]
            have h2 : (matchesEmpleado nombreNorm a && esOtraAusencia a) = true := by
              simp only [esOtraAusencia, htf, Bool.not_false, Bool.true_and, bne, hbeq,
                Bool.and_true, hmatch]
            have h3 : (matchesEmpleado nombreNorm a && esTeletrabajo a) = false := by
              simp only [esTeletrabajo, htf, Bool.and_false]
            simp [specDias_cons, h1, h2, h3, hdias, hnm, hv]
            omega
    · have hne : normalizar_nombre a.employee_full_name ≠ nombreNorm := by
        simp only [matchesEmpleado, beq_iff_eq] at hmatch
        exact hmatch
      rw [calcAusLoop, if_pos hne, calcAusLoop_ok fest nombreNorm ym rest acc hrest]
      have hb : matchesEmpleado nombreNorm a = false := by
        simp only [Bool.not_eq_true] at hmatch
        exact hmatch
      simp [specDias_cons, hb]

theorem calcAusLoop_nomatch (fest : Date → Bool) (nombreNorm : List Char) (ym : MonthKey) :
    ∀ (leaves : List Ausencia) (acc : Nat × Nat × Nat),
      (∀ a ∈ leaves, matchesEmpleado nombreNorm a = false) →
      calcAusLoop fest nombreNorm ym leaves acc = .ok acc
  | [], _, _ => rfl
  | a :: rest, acc, h => by
    have hm := h a (List.mem_cons_self a rest)
    have hne : normalizar_nombre a.employee_full_name ≠ nombreNorm := by
      simp only [matchesEmpleado] at hm
      exact beq_eq_false_iff_ne.1 hm
    rw [calcAusLoop, if_pos hne]
    exact calcAusLoop_nomatch fest nombreNorm ym rest acc
      (fun b hb => h b (List.mem_cons_of_mem a hb))

/-! ## Claim C3: bucket classification by leave type -/

/-- The `holidays.Spain(subdiv="CT")` holiday set for 2025 (external
calendar data instantiated concretely), as a membership test. -/
def festivosBarcelonaCT2025 : Date → Bool :=
  fun d => decide (d ∈ holidaysCatalonia2025)

/-- Scenario leave of the spec: type 2280065 ("Día extra teletrabajo") for
"Albert Sunyer", 10–12 March 2025 — three working days. -/
def ausenciaTeleMarzo2025 : Ausencia :=
  ⟨"Albert Sunyer".data, some ⟨2025, 3, 10⟩, some ⟨2025, 3, 12⟩, 2280065⟩

/-- C3: every matching leave contributes its in-month working days to
exactly one bucket chosen by `leave_type_id` (2280065 → remote credit,
2276680 → vacation, anything else → other absence); in the spec's
scenario a 3-working-day leave of type 2280065 in March 2025 yields
`(vacaciones, otras, teletrabajo) = (0, 0, 3)` and leaves
`calcular_horas_disponibles` for that month unchanged, teletrabajo not
being one of its inputs. -/
theorem claim_C3 (fest : Date → Bool) (nombre : List Char) (y m : Nat)
    (leaves : List Ausencia)
    (hdates : ∀ a ∈ leaves, matchesEmpleado (normalizar_nombre nombre) a = true →
      a.start_on.isSome ∧ a.finish_on.isSome) :
    calcular_ausencias_empleado fest nombre y m leaves =
      .ok (specDias fest (normalizar_nombre nombre) (y, m) esVacaciones leaves,
           specDias fest (normalizar_nombre nombre) (y, m) esOtraAusencia leaves,
           specDias fest (normalizar_nombre nombre) (y, m) esTeletrabajo leaves) ∧
      calcular_ausencias_empleado festivosBarcelonaCT2025 "Albert Sunyer".data 2025 3
          [ausenciaTeleMarzo2025] = .ok (0, 0, 3) ∧
      calcular_horas_disponibles holidaysCatalonia2025 2025 3
          (((ausenciasConCaptura festivosBarcelonaCT2025 "Albert Sunyer".data 2025 3
              [ausenciaTeleMarzo2025]).1 : ℚ))
          (((ausenciasConCaptura festivosBarcelonaCT2025 "Albert Sunyer".data 2025 3
              [ausenciaTeleMarzo2025]).2.1 : ℚ)) (1 / 10) =
        calcular_horas_disponibles holidaysCatalonia2025 2025 3 0 0 (1 / 10) := by
  refine ⟨?_, by rfl, ?_⟩
  · unfold calcular_ausencias_empleado
    rw [calcAusLoop_ok fest (normalizar_nombre nombre) (y, m) leaves (0, 0, 0) hdates]
    simp
  · have hres : ausenciasConCaptura festivosBarcelonaCT2025 "Albert Sunyer".data 2025 3
        [ausenciaTeleMarzo2025] = (0, 0, 3) := by decide
    rw [hres]
    norm_num

theorem claim_C3_witness :
    (∀ a ∈ [ausenciaTeleMarzo2025],
        matchesEmpleado (normalizar_nombre "Albert Sunyer".data) a = true →
        a.start_on.isSome ∧ a.finish_on.isSome) ∧
      (calcular_ausencias_empleado festivosBarcelonaCT2025 "Albert Sunyer".data 2025 3
          [ausenciaTeleMarzo2025] =
        .ok (specDias festivosBarcelonaCT2025 (normalizar_nombre "Albert Sunyer".data)
               (2025, 3) esVacaciones [ausenciaTeleMarzo2025],
             specDias festivosBarcelonaCT2025 (normalizar_nombre "Albert Sunyer".data)
               (2025, 3) esOtraAusencia [ausenciaTeleMarzo2025],
             specDias festivosBarcelonaCT2025 (normalizar_nombre "Albert Sunyer".data)
               (2025, 3) esTeletrabajo [ausenciaTeleMarzo2025]) ∧
        calcular_ausencias_empleado festivosBarcelonaCT2025 "Albert Sunyer".data 2025 3
            [ausenciaTeleMarzo2025] = .ok (0, 0, 3) ∧
        calcular_horas_disponibles holidaysCatalonia2025 2025 3
            (((ausenciasConCaptura festivosBarcelonaCT2025 "Albert Sunyer".data 2025 3
                [ausenciaTeleMarzo2025]).1 : ℚ))
            (((ausenciasConCaptura festivosBarcelonaCT2025 "Albert Sunyer".data 2025 3
                [ausenciaTeleMarzo2025]).2.1 : ℚ)) (1 / 10) =
          calcular_horas_disponibles holidaysCatalonia2025 2025 3 0 0 (1 / 10)) :=
  ⟨by decide,
    claim_C3 festivosBarcelonaCT2025 "Albert Sunyer".data 2025 3
      [ausenciaTeleMarzo2025] (by decide)⟩

/-! ## Claim C8: error behavior of the Absence Classifier (corrected) -/

/-- A good vacation leave for "Albert Sunyer": 10–12 March 2025. -/
def ausenciaVacMarzo2025 : Ausencia :=
  ⟨"Albert Sunyer".data, some ⟨2025, 3, 10⟩, some ⟨2025, 3, 12⟩, 2276680⟩

/-- A matching leave whose `start_on` does not convert to a timestamp
(unparseable text or a date outside the pandas bounds). -/
def ausenciaFechaMala : Ausencia :=
  ⟨"Albert Sunyer".data, none, some ⟨2025, 3, 20⟩, 2276680⟩

/-- C8 counterexample: with a good 3-working-day vacation leave plus one
matching leave whose date does not convert, `calcular_ausencias_empleado`
raises (`Except.error`) to its caller rather than treating the bad leave
as 0 days, and the caller's catch then wipes the whole employee-month to
`(0, 0, 0)` — losing the good leave's 3 vacation days, which alone would
give `(3, 0, 0)`. -/
theorem claim_C8_counterexample :
    calcular_ausencias_empleado festivosBarcelonaCT2025 "Albert Sunyer".data 2025 3
        [ausenciaVacMarzo2025, ausenciaFechaMala] = .error () ∧
      ausenciasConCaptura festivosBarcelonaCT2025 "Albert Sunyer".data 2025 3
        [ausenciaVacMarzo2025, ausenciaFechaMala] = (0, 0, 0) ∧
      calcular_ausencias_empleado festivosBarcelonaCT2025 "Albert Sunyer".data 2025 3
        [ausenciaVacMarzo2025] = .ok (3, 0, 0) :=
  ⟨by rfl, by decide, by rfl⟩

/-- C8 (amended): if no leave matches the employee the classifier returns
`(0, 0, 0)`; a leave whose parsed range is reversed (finish before start)
yields 0 business days; a leave whose date fails to convert makes the
classifier raise, and the report-build loop catches that failure,
defaulting that employee-month's three fields to `(0, 0, 0)` (including
any contribution of the employee's other leaves) while every other
employee's entry is computed independently and unaffected. -/
theorem claim_C8_amended :
    (∀ (fest : Date → Bool) (nombre : List Char) (y m : Nat) (leaves : List Ausencia),
        (∀ a ∈ leaves, matchesEmpleado (normalizar_nombre nombre) a = false) →
        calcular_ausencias_empleado fest nombre y m leaves = .ok (0, 0, 0)) ∧
      (∀ (fest : Date → Bool) (i f : Date) (ym : MonthKey), f.ordinal < i.ordinal →
        diasLaborablesPorMes fest i f ym = 0) ∧
      (∀ (fest : Date → Bool) (nombre : List Char) (y m : Nat) (leaves : List Ausencia),
        calcular_ausencias_empleado fest nombre y m leaves = .error () →
        ausenciasConCaptura fest nombre y m leaves = (0, 0, 0)) ∧
      (∀ (fest : Date → Bool) (y m : Nat) (leaves : List Ausencia)
          (emps : List (List Char)) (i : Nat) (hi : i < emps.length),
        (ausenciasTodosEmpleados fest y m leaves emps).length = emps.length ∧
        (ausenciasTodosEmpleados fest y m leaves emps).get
            ⟨i, by simpa [ausenciasTodosEmpleados] using hi⟩ =
          ausenciasConCaptura fest (emps.get ⟨i, hi⟩) y m leaves) := by
  refine ⟨?_, ?_, ?_, ?_⟩
  · intro fest nombre y m leaves h
    exact calcAusLoop_nomatch fest (normalizar_nombre nombre) (y, m) leaves (0, 0, 0) h
  · intro fest i f ym hlt
    have hfuel : f.ordinal + 1 - i.ordinal = 0 := by omega
    simp [diasLaborablesPorMes, businessDaysRange, dateList, hfuel, dateListAux]
  · intro fest nombre y m leaves h
    simp [ausenciasConCaptura, h]
  · intro fest y m leaves emps i hi
    constructor
    · simp [ausenciasTodosEmpleados]
    · simp [ausenciasTodosEmpleados, List.get_eq_getElem, List.getElem_map]

/-! ## Helper lemmas: the Task Aggregator fold -/

theorem addShare_apply (acc : MonthKey → List Char → ℚ × ℚ) (mk : MonthKey)
    (nm : List Char) (hc est : ℚ) (mk' : MonthKey) (nm' : List Char) :
    addShare acc mk nm hc est mk' nm' =
      if mk' = mk ∧ nm' = nm then ((acc mk' nm').1 + hc, (acc mk' nm').2 + est)
      else acc mk' nm' := rfl

theorem foldl_addShare (mk : MonthKey) (hc est : ℚ) :
    ∀ (cols : List Colaborador) (acc : MonthKey → List Char → ℚ × ℚ)
      (mk' : MonthKey) (nm : List Char),
      (cols.foldl (fun a c => addShare a mk (normalizar_nombre (rawNameOf c)) hc est) acc)
          mk' nm
        = acc mk' nm +
          (if mk' = mk then
            ((cols.countP (fun c => normalizar_nombre (rawNameOf c) == nm) : ℚ) * hc,
             (cols.countP (fun c => normalizar_nombre (rawNameOf c) == nm) : ℚ) * est)
          else 0)
  | [], acc, mk', nm => by simp
  | c :: cols, acc, mk', nm => by
    rw [List.foldl_cons, foldl_addShare mk hc est cols _ mk' nm, List.countP_cons,
      addShare_apply]
    by_cases hmk : mk' = mk
    · by_cases hnm : (normalizar_nombre (rawNameOf c) == nm) = true
      · have hnm' : nm = normalizar_nombre (rawNameOf c) := (beq_iff_eq.1 hnm).symm
        rw [if_pos ⟨hmk, hnm'⟩, if_pos hmk, if_pos hmk, hnm]
        refine Prod.ext ?_ ?_ <;> simp <;> push_cast <;> ring
      · have hnm' : ¬ nm = normalizar_nombre (rawNameOf c) := by
          intro hcontra
          exact hnm (beq_iff_eq.2 hcontra.symm)
        have hb : (normalizar_nombre (rawNameOf c) == nm) = false := by
          cases hcb : (normalizar_nombre (rawNameOf c) == nm)
          · rfl
          · exact absurd hcb hnm
        rw [if_neg (fun hcontra => hnm' hcontra.2), if_pos hmk, if_pos hmk, hb]
        simp
    · rw [if_neg (fun hcontra => hmk hcontra.1), if_neg hmk, if_neg hmk]

theorem procTask_apply (acc : MonthKey → List Char → ℚ × ℚ) (t : Task)
    (mk : MonthKey) (nm : List Char) :
    procTask acc t mk nm = acc mk nm + contribTask t mk nm := by
  obtain ⟨dt, hc, est, cols⟩ := t
  cases dt with
  | none => simp [procTask, contribTask]
  | some mk0 =>
    by_cases hemp : cols.isEmpty = true
    · simp [procTask, contribTask, hemp]
    · simp only [procTask, hemp]
      rw [if_neg (by simp [hemp])]
      rw [foldl_addShare mk0 (hc / (cols.length : ℚ)) (est / 60 / (cols.length : ℚ))
        cols acc mk nm]
      simp only [contribTask, hemp]
      by_cases hm : mk = mk0
      · rw [if_pos hm, if_pos (by exact ⟨hm.symm, by simp [hemp]⟩)]
      · rw [if_neg hm, if_neg (by intro hcontra; exact hm hcontra.1.symm),
          Prod.mk_zero_zero]

theorem foldl_procTask (mk : MonthKey) (nm : List Char) :
    ∀ (ts : List Task) (acc : MonthKey → List Char → ℚ × ℚ),
      (ts.foldl procTask acc) mk nm =
        acc mk nm + ((ts.map (fun t => contribTask t mk nm)).sum)
  | [], acc => by simp
  | t :: ts, acc => by
    rw [List.foldl_cons, foldl_procTask mk nm ts _, procTask_apply, List.map_cons,
      List.sum_cons, add_assoc]

/-- `aggTasks` as a sum of independent per-task contributions. -/
theorem aggTasks_sum (ts : List Task) (mk : MonthKey) (nm : List Char) :
    aggTasks ts mk nm = ((ts.map (fun t => contribTask t mk nm)).sum) := by
  rw [aggTasks, foldl_procTask mk nm ts]
  show (0, 0) + _ = _
  rw [Prod.mk_zero_zero, zero_add]

/-! ## Claims C6, C9: the Task Aggregator -/

/-- The spec's hour-splitting example: `hour_charged = 10`,
`estimated = 120` minutes, 2 collaborators, March 2025. -/
def tareaEjemplo : Task :=
  ⟨some (2025, 3), 10, 120, [⟨"Albert".data, "Sunyer".data⟩, ⟨"David".data, "Collado".data⟩]⟩

/-- A second concrete task (April 2025, one collaborator), used to
exercise order-independence. -/
def tareaEjemplo2 : Task :=
  ⟨some (2025, 4), 3, 90, [⟨"Esther".data, "Janer".data⟩]⟩

/-- C6: a task with a parseable timestamp and `n > 0` collaborators adds
`hour_charged / n` charged hours and `estimated / 60 / n` estimated hours
to each collaborator (keyed by normalized name, once per occurrence) in
the month of its timestamp; a task with no timestamp or no collaborators
contributes nothing; the spec's 10 / 120-minute / 2-collaborator example
gives each collaborator `(+5, +1)`. -/
theorem claim_C6 (ts : List Task) (t : Task) (mk : MonthKey) (nm : List Char)
    (hdt : t.dt = some mk) (hcols : t.collaborators ≠ []) :
    aggTasks (ts ++ [t]) mk nm = aggTasks ts mk nm +
        ((t.collaborators.countP (fun c => normalizar_nombre (rawNameOf c) == nm) : ℚ) *
           (t.hour_charged / (t.collaborators.length : ℚ)),
         (t.collaborators.countP (fun c => normalizar_nombre (rawNameOf c) == nm) : ℚ) *
           (t.estimated / 60 / (t.collaborators.length : ℚ))) ∧
      (∀ (ts' : List Task) (t' : Task) (mk' : MonthKey) (nm' : List Char),
        t'.dt = none ∨ t'.collaborators = [] →
        aggTasks (ts' ++ [t']) mk' nm' = aggTasks ts' mk' nm') ∧
      aggTasks [tareaEjemplo] (2025, 3) "albert sunyer vilafranca".data = (5, 1) ∧
      aggTasks [tareaEjemplo] (2025, 3) "david collado preciado".data = (5, 1) ∧
      aggTasks [tareaEjemplo] (2025, 4) "albert sunyer vilafranca".data = (0, 0) := by
  have hstep : ∀ (ts0 : List Task) (t0 : Task) (mk0 : MonthKey) (nm0 : List Char),
      aggTasks (ts0 ++ [t0]) mk0 nm0 = aggTasks ts0 mk0 nm0 + contribTask t0 mk0 nm0 := by
    intro ts0 t0 mk0 nm0
    rw [aggTasks, List.foldl_append, List.foldl_cons, List.foldl_nil, procTask_apply]
    rfl
  have hsingle : ∀ (t0 : Task) (mk0 : MonthKey) (nm0 : List Char),
      aggTasks [t0] mk0 nm0 = contribTask t0 mk0 nm0 := by
    intro t0 mk0 nm0
    rw [aggTasks_sum]
    simp
  refine ⟨?_, ?_, ?_, ?_, ?_⟩
  · rw [hstep ts t mk nm]
    congr 1
    have hemp : t.collaborators.isEmpty = false := by
      cases hcb : t.collaborators.isEmpty
      · rfl
      · exact absurd (List.isEmpty_iff.1 hcb) hcols
    simp [contribTask, hdt, hemp]
  · intro ts' t' mk' nm' hskip
    rw [hstep ts' t' mk' nm']
    rcases hskip with hnone | hempcols
    · simp [contribTask, hnone]
    · simp [contribTask, hempcols]
      cases t'.dt <;> simp
  · rw [hsingle]
    have hcnt : (tareaEjemplo.collaborators.countP
        (fun c => normalizar_nombre (rawNameOf c) ==
          "albert sunyer vilafranca".data)) = 1 := by decide
    simp [contribTask, show tareaEjemplo.dt = some (2025, 3) from rfl,
      show tareaEjemplo.collaborators.isEmpty = false from rfl, hcnt,
      show tareaEjemplo.collaborators.length = 2 from rfl,
      show tareaEjemplo.hour_charged = (10 : ℚ) from rfl,
      show tareaEjemplo.estimated = (120 : ℚ) from rfl]
    norm_num
  · rw [hsingle]
    have hcnt : (tareaEjemplo.collaborators.countP
        (fun c => normalizar_nombre (rawNameOf c) ==
          "david collado preciado".data)) = 1 := by decide
    simp [contribTask, show tareaEjemplo.dt = some (2025, 3) from rfl,
      show tareaEjemplo.collaborators.isEmpty = false from rfl, hcnt,
      show tareaEjemplo.collaborators.length = 2 from rfl,
      show tareaEjemplo.hour_charged = (10 : ℚ) from rfl,
      show tareaEjemplo.estimated = (120 : ℚ) from rfl]
    norm_num
  · rw [hsingle]
    simp [contribTask, show tareaEjemplo.dt = some (2025, 3) from rfl,
      Prod.ext_iff]

theorem claim_C6_witness :
    (tareaEjemplo.dt = some (2025, 3) ∧ tareaEjemplo.collaborators ≠ []) ∧
      (aggTasks ([] ++ [tareaEjemplo]) (2025, 3) "albert sunyer vilafranca".data =
          aggTasks [] (2025, 3) "albert sunyer vilafranca".data +
            ((tareaEjemplo.collaborators.countP
                (fun c => normalizar_nombre (rawNameOf c) ==
                  "albert sunyer vilafranca".data) : ℚ) *
               (tareaEjemplo.hour_charged / (tareaEjemplo.collaborators.length : ℚ)),
             (tareaEjemplo.collaborators.countP
                (fun c => normalizar_nombre (rawNameOf c) ==
                  "albert sunyer vilafranca".data) : ℚ) *
               (tareaEjemplo.estimated / 60 / (tareaEjemplo.collaborators.length : ℚ))) ∧
        (∀ (ts' : List Task) (t' : Task) (mk' : MonthKey) (nm' : List Char),
          t'.dt = none ∨ t'.collaborators = [] →
          aggTasks (ts' ++ [t']) mk' nm' = aggTasks ts' mk' nm') ∧
        aggTasks [tareaEjemplo] (2025, 3) "albert sunyer vilafranca".data = (5, 1) ∧
        aggTasks [tareaEjemplo] (2025, 3) "david collado preciado".data = (5, 1) ∧
        aggTasks [tareaEjemplo] (2025, 4) "albert sunyer vilafranca".data = (0, 0)) :=
  ⟨⟨rfl, List.cons_ne_nil _ _⟩,
    claim_C6 [] tareaEjemplo (2025, 3) "albert sunyer vilafranca".data rfl
      (List.cons_ne_nil _ _)⟩

/-- C9: task aggregation is order-independent — permuting the task list
leaves every per-employee, per-month charged/estimated total unchanged. -/
theorem claim_C9 (ts ts' : List Task) (hperm : ts.Perm ts') (mk : MonthKey)
    (nm : List Char) : aggTasks ts mk nm = aggTasks ts' mk nm := by
  rw [aggTasks_sum, aggTasks_sum]
  exact List.Perm.sum_eq (hperm.map (fun t => contribTask t mk nm))

theorem claim_C9_witness :
    ([tareaEjemplo, tareaEjemplo2].Perm [tareaEjemplo2, tareaEjemplo]) ∧
      aggTasks [tareaEjemplo, tareaEjemplo2] (2025, 3) "albert sunyer vilafranca".data =
        aggTasks [tareaEjemplo2, tareaEjemplo] (2025, 3) "albert sunyer vilafranca".data :=
  ⟨List.Perm.swap tareaEjemplo2 tareaEjemplo [],
    claim_C9 [tareaEjemplo, tareaEjemplo2] [tareaEjemplo2, tareaEjemplo]
      (List.Perm.swap tareaEjemplo2 tareaEjemplo []) (2025, 3)
      "albert sunyer vilafranca".data⟩

/-! ## Helper lemmas: the Name Normalizer -/

theorem toNat_ofNat_small (n : Nat) (h : n < 55296) : (Char.ofNat n).toNat = n := by
  have hv : n.isValidChar := Or.inl h
  simp [Char.ofNat, hv, Char.ofNatAux, Char.toNat, UInt32.toNat, BitVec.toNat_ofNatLt]

theorem lowerChar_idem (c : Char) : lowerChar (lowerChar c) = lowerChar c := by
  unfold lowerChar
  by_cases h : ((65 ≤ c.toNat && c.toNat ≤ 90) ||
      (192 ≤ c.toNat && c.toNat ≤ 222 && c.toNat != 215)) = true
  · rw [if_pos h]
    have hb : (65 ≤ c.toNat ∧ c.toNat ≤ 90) ∨
        ((192 ≤ c.toNat ∧ c.toNat ≤ 222) ∧ ¬c.toNat = 215) := by
      simpa [Bool.or_eq_true, Bool.and_eq_true, decide_eq_true_eq] using h
    have hlt : c.toNat + 32 < 55296 := by
      rcases hb with ⟨h1, h2⟩ | ⟨⟨h1, h2⟩, h3⟩ <;> omega
    have ht : (Char.ofNat (c.toNat + 32)).toNat = c.toNat + 32 :=
      toNat_ofNat_small _ hlt
    split
    · next hcontra =>
      exfalso
      simp only [ht, Bool.or_eq_true, Bool.and_eq_true, decide_eq_true_eq,
        bne_iff_ne] at hcontra
      rcases hb with ⟨h1, h2⟩ | ⟨⟨h1, h2⟩, h3⟩ <;> omega
    · rfl
  · rw [if_neg h, if_neg h]

theorem splitAux_allSpace :
    ∀ (t : List Char), (∀ c ∈ t, isPySpace c = true) →
      ∀ acc, splitAux t acc = if acc.isEmpty then [] else [acc.reverse]
  | [], _, acc => rfl
  | c :: t, h, acc => by
    have hc : isPySpace c = true := h c (List.mem_cons_self c t)
    have ih := splitAux_allSpace t (fun x hx => h x (List.mem_cons_of_mem c hx))
    simp only [splitAux, hc, if_true]
    by_cases ha : acc.isEmpty = true
    · rw [if_pos ha, if_pos ha, ih []]
      rfl
    · rw [if_neg ha, if_neg ha, ih []]
      rfl

theorem splitAux_append_spaces (t : List Char) (ht : ∀ c ∈ t, isPySpace c = true) :
    ∀ (l acc : List Char), splitAux (l ++ t) acc = splitAux l acc
  | [], acc => by
    rw [List.nil_append, splitAux_allSpace t ht acc]
    rfl
  | c :: l, acc => by
    simp only [List.cons_append, splitAux]
    by_cases hc : isPySpace c = true
    · simp only [if_pos hc]
      by_cases ha : acc.isEmpty = true
      · rw [if_pos ha, if_pos ha]
        exact splitAux_append_spaces t ht l []
      · rw [if_neg ha, if_neg ha]
        exact congrArg _ (splitAux_append_spaces t ht l [])
    · rw [if_neg hc, if_neg hc]
      exact splitAux_append_spaces t ht l (c :: acc)

theorem splitAux_dropWhile_leading :
    ∀ (l : List Char), splitAux (l.dropWhile isPySpace) [] = splitAux l []
  | [] => rfl
  | c :: l => by
    by_cases hc : isPySpace c = true
    · rw [List.dropWhile_cons]
      rw [if_pos hc, splitAux_dropWhile_leading l]
      simp only [splitAux, hc, if_true, List.isEmpty_nil]
    · rw [List.dropWhile_cons, if_neg hc]

theorem splitAux_word_prefix :
    ∀ (w : List Char), (∀ c ∈ w, isPySpace c = false) →
      ∀ (rest acc : List Char), splitAux (w ++ rest) acc = splitAux rest (w.reverse ++ acc)
  | [], _, rest, acc => by simp
  | c :: w, hw, rest, acc => by
    have hc : isPySpace c = false := hw c (List.mem_cons_self c w)
    have ih := splitAux_word_prefix w (fun x hx => hw x (List.mem_cons_of_mem c hx))
    simp only [List.cons_append, splitAux, hc, Bool.false_eq_true, if_false]
    refine (ih rest (c :: acc)).trans ?_
    congr 1
    rw [List.reverse_cons, List.append_assoc]
    rfl

theorem splitW_joinWords :
    ∀ (ws : List (List Char)),
      (∀ w ∈ ws, w ≠ [] ∧ ∀ c ∈ w, isPySpace c = false) →
      splitW (joinWords ws) = ws
  | [], _ => rfl
  | [w], h => by
    obtain ⟨hne, hsp⟩ := h w (by simp)
    have h1 := splitAux_word_prefix w hsp [] []
    simp only [List.append_nil] at h1
    have hrev : w.reverse.isEmpty = false := by
      cases hw : w.reverse.isEmpty
      · rfl
      · exact absurd (by simpa using List.isEmpty_iff.1 hw) hne
    show splitAux (joinWords [w]) [] = [w]
    have hj : joinWords [w] = w := rfl
    rw [hj, h1, splitAux, if_neg (by simp [hrev])]
    simp
  | w :: w' :: ws, h => by
    obtain ⟨hne, hsp⟩ := h w (by simp)
    have hrest : ∀ u ∈ w' :: ws, u ≠ [] ∧ ∀ c ∈ u, isPySpace c = false :=
      fun u hu => h u (by simp [hu])
    have hrev : w.reverse.isEmpty = false := by
      cases hw : w.reverse.isEmpty
      · rfl
      · exact absurd (by simpa using List.isEmpty_iff.1 hw) hne
    have hj : joinWords (w :: w' :: ws) = w ++ ' ' :: joinWords (w' :: ws) := rfl
    show splitAux (joinWords (w :: w' :: ws)) [] = w :: w' :: ws
    rw [hj, splitAux_word_prefix w hsp _ []]
    simp only [List.append_nil]
    have hspc : isPySpace ' ' = true := rfl
    rw [splitAux, if_pos hspc, if_neg (by simp [hrev]), List.reverse_reverse]
    exact congrArg _ (splitW_joinWords (w' :: ws) hrest)

theorem splitAux_words :
    ∀ (l acc : List Char), (∀ c ∈ acc, isPySpace c = false) →
      ∀ w ∈ splitAux l acc, w ≠ [] ∧ ∀ c ∈ w, isPySpace c = false ∧ (c ∈ l ∨ c ∈ acc)
  | [], acc, hacc => by
    intro w hw
    rw [splitAux] at hw
    by_cases ha : acc.isEmpty = true
    · rw [if_pos ha] at hw
      exact absurd hw (List.not_mem_nil w)
    · rw [if_neg ha] at hw
      rcases List.mem_cons.1 hw with rfl | hcontra
      · refine ⟨?_, ?_⟩
        · intro hcontra
          exact ha (by simpa using congrArg List.isEmpty (congrArg List.reverse hcontra))
        · intro c hc
          rw [List.mem_reverse] at hc
          exact ⟨hacc c hc, Or.inr hc⟩
      · exact absurd hcontra (List.not_mem_nil w)
  | c :: l, acc, hacc => by
    intro w hw
    rw [splitAux] at hw
    by_cases hc : isPySpace c = true
    · rw [if_pos hc] at hw
      by_cases ha : acc.isEmpty = true
      · rw [if_pos ha] at hw
        obtain ⟨hne, hprops⟩ := splitAux_words l [] (by simp) w hw
        refine ⟨hne, fun x hx => ?_⟩
        obtain ⟨hsp, hmem⟩ := hprops x hx
        rcases hmem with hmem | hmem
        · exact ⟨hsp, Or.inl (List.mem_cons_of_mem c hmem)⟩
        · exact absurd hmem (List.not_mem_nil x)
      · rw [if_neg ha] at hw
        rcases List.mem_cons.1 hw with rfl | hw'
        · refine ⟨?_, ?_⟩
          · intro hcontra
            exact ha (by simpa using congrArg List.isEmpty (congrArg List.reverse hcontra))
          · intro x hx
            rw [List.mem_reverse] at hx
            exact ⟨hacc x hx, Or.inr hx⟩
        · obtain ⟨hne, hprops⟩ := splitAux_words l [] (by simp) w hw'
          refine ⟨hne, fun x hx => ?_⟩
          obtain ⟨hsp, hmem⟩ := hprops x hx
          rcases hmem with hmem | hmem
          · exact ⟨hsp, Or.inl (List.mem_cons_of_mem c hmem)⟩
          · exact absurd hmem (List.not_mem_nil x)
    · rw [if_neg hc] at hw
      have hacc' : ∀ x ∈ c :: acc, isPySpace x = false := by
        intro x hx
        rcases List.mem_cons.1 hx with rfl | hx'
        · cases hb : isPySpace x
          · rfl
          · exact absurd hb hc
        · exact hacc x hx'
      obtain ⟨hne, hprops⟩ := splitAux_words l (c :: acc) hacc' w hw
      refine ⟨hne, fun x hx => ?_⟩
      obtain ⟨hsp, hmem⟩ := hprops x hx
      rcases hmem with hmem | hmem
      · exact ⟨hsp, Or.inl (List.mem_cons_of_mem c hmem)⟩
      · rcases List.mem_cons.1 hmem with rfl | hx'
        · exact ⟨hsp, Or.inl (List.mem_cons_self x l)⟩
        · exact ⟨hsp, Or.inr hx'⟩

theorem mem_joinWords :
    ∀ (ws : List (List Char)) (c : Char),
      c ∈ joinWords ws → c = ' ' ∨ ∃ w, w ∈ ws ∧ c ∈ w
  | [], c => by simp [joinWords]
  | [w], c => by
    intro hc
    exact Or.inr ⟨w, by simp, by simpa [joinWords] using hc⟩
  | w :: w' :: ws, c => by
    intro hc
    rw [show joinWords (w :: w' :: ws) = w ++ ' ' :: joinWords (w' :: ws) from rfl] at hc
    rcases List.mem_append.1 hc with h1 | h2
    · exact Or.inr ⟨w, by simp, h1⟩
    · rcases List.mem_cons.1 h2 with rfl | h3
      · exact Or.inl rfl
      · rcases mem_joinWords (w' :: ws) c h3 with h | ⟨u, hu, hcu⟩
        · exact Or.inl h
        · exact Or.inr ⟨u, List.mem_cons_of_mem w hu, hcu⟩

theorem mem_pyStrip (l : List Char) (c : Char) (h : c ∈ pyStrip l) : c ∈ l := by
  unfold pyStrip at h
  rw [List.mem_reverse] at h
  have h1 : c ∈ (l.dropWhile isPySpace).reverse :=
    (List.dropWhile_sublist isPySpace).mem h
  rw [List.mem_reverse] at h1
  exact (List.dropWhile_sublist isPySpace).mem h1

theorem splitW_pyStrip (l : List Char) : splitW (pyStrip l) = splitW l := by
  have hdecomp :
      pyStrip l ++ ((l.dropWhile isPySpace).reverse.takeWhile isPySpace).reverse =
        l.dropWhile isPySpace := by
    unfold pyStrip
    rw [← List.reverse_append, List.takeWhile_append_dropWhile, List.reverse_reverse]
  have hspaces : ∀ c ∈ ((l.dropWhile isPySpace).reverse.takeWhile isPySpace).reverse,
      isPySpace c = true := by
    intro c hc
    rw [List.mem_reverse] at hc
    exact List.mem_takeWhile_imp hc
  calc splitW (pyStrip l)
      = splitAux (pyStrip l) [] := rfl
    _ = splitAux (pyStrip l ++
          ((l.dropWhile isPySpace).reverse.takeWhile isPySpace).reverse) [] :=
        (splitAux_append_spaces _ hspaces _ []).symm
    _ = splitAux (l.dropWhile isPySpace) [] := by rw [hdecomp]
    _ = splitAux l [] := splitAux_dropWhile_leading l

/-- The collapse step of `normalizar_nombre`:
`' '.join(nombre.lower().strip().split())`. -/
def collapseNombre (l : List Char) : List Char :=
  joinWords (splitW (pyStrip (l.map lowerChar)))

theorem map_lowerChar_fixed (l : List Char) (h : ∀ c ∈ l, lowerChar c = c) :
    l.map lowerChar = l :=
  (List.map_congr_left h).trans (List.map_id l)

theorem collapseNombre_idem (l : List Char) :
    collapseNombre (collapseNombre l) = collapseNombre l := by
  have hwords := splitAux_words (pyStrip (l.map lowerChar)) [] (by simp)
  have hfix : ∀ c ∈ joinWords (splitW (pyStrip (l.map lowerChar))), lowerChar c = c := by
    intro c hc
    rcases mem_joinWords _ c hc with hsp | ⟨w, hw, hcw⟩
    · rw [hsp]
      decide
    · obtain ⟨hne, hprops⟩ := hwords w hw
      obtain ⟨hnosp, hmem⟩ := hprops c hcw
      rcases hmem with hmem | hmem
      · obtain ⟨c0, hc0, rfl⟩ := List.mem_map.1 (mem_pyStrip _ _ hmem)
        exact lowerChar_idem c0
      · exact absurd hmem (List.not_mem_nil c)
  have hws : ∀ w ∈ splitW (pyStrip (l.map lowerChar)),
      w ≠ [] ∧ ∀ c ∈ w, isPySpace c = false := by
    intro w hw
    obtain ⟨hne, hprops⟩ := hwords w hw
    exact ⟨hne, fun c hc => (hprops c hc).1⟩
  show collapseNombre (joinWords (splitW (pyStrip (l.map lowerChar)))) =
    joinWords (splitW (pyStrip (l.map lowerChar)))
  unfold collapseNombre
  rw [map_lowerChar_fixed _ hfix, splitW_pyStrip, splitW_joinWords _ hws]

theorem mapLookup_mem_values :
    ∀ (m : List (List Char × List Char)) (s v : List Char),
      mapLookup m s = some v → v ∈ m.map Prod.snd
  | [], s, v => by simp [mapLookup]
  | (k, val) :: rest, s, v => by
    intro h
    rw [mapLookup] at h
    by_cases hs : s = k
    · rw [if_pos hs] at h
      rw [List.map_cons]
      exact Option.some.inj h ▸ List.mem_cons_self val _
    · rw [if_neg hs] at h
      exact List.mem_cons_of_mem val (mapLookup_mem_values rest s v h)

/-! ## Claim C7: the Name Normalizer is idempotent -/

/-- C7: `normalizar_nombre` is idempotent on every string, every output of
the static alias table is a fixed point of it, and it is case- and
whitespace-insensitive on the spec's example:
`normalize("  Albert   SUNYER ") = normalize("albert sunyer")
= "albert sunyer vilafranca"`. -/
theorem claim_C7 :
    (∀ l : List Char, normalizar_nombre (normalizar_nombre l) = normalizar_nombre l) ∧
      (∀ kv ∈ NOMBRE_MAPPING, normalizar_nombre kv.2 = kv.2) ∧
      normalizar_nombre "  Albert   SUNYER ".data =
        normalizar_nombre "albert sunyer".data ∧
      normalizar_nombre "albert sunyer".data = "albert sunyer vilafranca".data := by
  have hnorm : ∀ l : List Char, normalizar_nombre l =
      (mapLookup NOMBRE_MAPPING (collapseNombre l)).getD (collapseNombre l) :=
    fun _ => rfl
  have hvalues : ∀ v ∈ NOMBRE_MAPPING.map Prod.snd,
      collapseNombre v = v ∧ mapLookup NOMBRE_MAPPING v = none := by decide
  refine ⟨?_, by decide, by decide, by decide⟩
  intro l
  rw [hnorm l]
  cases hlook : mapLookup NOMBRE_MAPPING (collapseNombre l) with
  | none =>
    simp only [Option.getD_none]
    rw [hnorm, collapseNombre_idem, hlook]
    rfl
  | some v =>
    simp only [Option.getD_some]
    obtain ⟨hcv, hlv⟩ := hvalues v (mapLookup_mem_values _ _ _ hlook)
    rw [hnorm v, hcv, hlv]
    rfl

end OoptimoCarga

